import Mathlib

/-!
Shallow embedding of the SBTB trading-bot backend (server/services of the
repository): the SQLite persistence layer (SqlitePersistenceService), the
ccxt exchange gateway (CcxtExchange), and the trading engine (BotEngine,
the mutex/SQLite version).  Numbers of the TypeScript source (IEEE doubles)
are modelled as rationals; JavaScript truthiness of a number (`x || d`,
`if (!x)`) is modelled by comparison with 0, and an optional number field
(`number | undefined`) is modelled as `Option ℚ` with `Option.getD`
mirroring `x || d` / `x ?? d` where the two coincide on numeric values.
The engine's mutex serialises every operation, so operations are modelled
as sequential state transformers; the `isScanning` fast path, which only
matters for overlapping invocations, is invisible in the sequential model.
-/

namespace SBTB

/-- JavaScript `a || b` for a number `a`: `a` unless `a` is falsy (0). -/
def jsOrQ (a b : ℚ) : ℚ := if a = 0 then b else a

/-- JavaScript `a || b` for `a : number | undefined`: `b` when `a` is
`undefined` or `0`, else the value of `a`. -/
def jsOr (a : Option ℚ) (b : ℚ) : ℚ :=
  match a with
  | none => b
  | some v => if v = 0 then b else v

/-- JavaScript truthiness test of `x : number | undefined`
(`if (x)` / `x && _`): true exactly when `x` is a non-zero number.
For the non-negative quantities the engine tests (`total > 0`,
`baseVolume > 0`, `last > 0`) this equals `0 < x.getD 0`. -/
def jsTruthy (a : Option ℚ) : Prop := 0 < a.getD 0 ∨ a.getD 0 < 0

instance (a : Option ℚ) : Decidable (jsTruthy a) := by
  unfold jsTruthy; infer_instance

/-- `List.filter` with a decidable `Prop` predicate (used so that concrete
runs can be evaluated by `simp`/`norm_num`). -/
def filterP (p : α → Prop) [DecidablePred p] : List α → List α
  | [] => []
  | x :: xs => if p x then x :: filterP p xs else filterP p xs

/-- Stable insertion of `x` into a list sorted by `le`: `x` goes after
every element `y` with `le y x` (so ties keep their original order, like
V8's stable `Array.prototype.sort`). -/
def insertLe (le : α → α → Prop) [DecidableRel le] (x : α) : List α → List α
  | [] => [x]
  | y :: ys => if le y x then y :: insertLe le x ys else x :: y :: ys

/-- Stable sort by the total preorder `le`, modelling JavaScript's stable
`Array.prototype.sort` with a numeric comparator. -/
def sortByLe (le : α → α → Prop) [DecidableRel le] (l : List α) : List α :=
  l.foldl (fun acc x => insertLe le x acc) []

/-- JavaScript `Map.prototype.get` on an association list. -/
def mapGet (m : List (String × β)) (k : String) : Option β :=
  match m.find? (fun e => e.1 == k) with
  | some e => some e.2
  | none => none

/-- JavaScript `Map.prototype.has`. -/
def mapHas (m : List (String × β)) (k : String) : Prop :=
  (mapGet m k).isSome

instance (m : List (String × β)) (k : String) : Decidable (mapHas m k) := by
  unfold mapHas; infer_instance

/-- JavaScript `Map.prototype.set`: replace in place when the key exists,
append otherwise (insertion order preserved, like a JS `Map`). -/
def mapSet (m : List (String × β)) (k : String) (v : β) : List (String × β) :=
  match m with
  | [] => [(k, v)]
  | e :: rest => if e.1 = k then (k, v) :: rest else e :: mapSet rest k v

/-- JavaScript `Map.prototype.delete`. -/
def mapDelete (m : List (String × β)) (k : String) : List (String × β) :=
  match m with
  | [] => []
  | e :: rest => if e.1 = k then rest else e :: mapDelete rest k

/-- `s.endsWith(suffix)` on the character data of the strings. -/
def symEndsWith (s suf : String) : Bool := List.isSuffixOf suf.data s.data

/-- Remove the first occurrence of a slash character from a character list
(JavaScript `String.prototype.replace('/', '')` replaces only the first
match). -/
def removeFirstSlash : List Char → List Char
  | [] => []
  | c :: rest => if c = '/' then rest else c :: removeFirstSlash rest

/-- `symbol.replace('/', '')`, used to normalise `BASE/QUOTE` to
`BASEQUOTE` before the exclusion check. -/
def symNoSlash (s : String) : String := String.mk (removeFirstSlash s.data)

/-- src/constants.ts: `MIN_TRADE_VALUE_USDT = 10`. -/
def MIN_TRADE_VALUE_USDT : ℚ := 10

/-- src/constants.ts: `EXCLUDED_SYMBOLS_BY_DEFAULT`. -/
def EXCLUDED_SYMBOLS_BY_DEFAULT : List String := ["BTCUSDT", "ETHUSDT", "BNBUSDT"]

/-- src/types.ts `BotStatus`. -/
inductive BotStatus where
  | STOPPED
  | RUNNING
  | ERROR
  | INITIALIZING
deriving Repr, DecidableEq

/-- src/types.ts `BotSettings`.  `maxOpenTrades` is a count and is
modelled as a natural number; all other numeric fields are rationals. -/
structure BotSettings where
  maxCoinPrice : ℚ
  tradeAmountUSDT : ℚ
  scanIntervalMs : ℚ
  targetProfitPercent : ℚ
  stopLossPercent : ℚ
  maxOpenTrades : Nat
  rsiPeriod : ℚ
  rsiBuyThreshold : ℚ
  smaShortPeriod : ℚ
  smaLongPeriod : ℚ
  useTrailingStop : Bool
  trailingStopArmPercentage : ℚ
  trailingStopOffsetPercentage : ℚ
deriving Repr, DecidableEq

/-- `BotTradeData` (one open position). -/
structure BotTradeData where
  purchasePrice : ℚ
  amount : ℚ
  timestamp : ℤ
  highestPriceSinceBuy : Option ℚ := none
deriving Repr, DecidableEq

/-- src/types.ts `CompletedTrade.type`. -/
inductive TradeType where
  | BUY
  | SELL
deriving Repr, DecidableEq

/-- src/types.ts `CompletedTrade` (one immutable ledger row). -/
structure CompletedTrade where
  id : String
  timestamp : ℤ
  type : TradeType
  pair : String
  price : ℚ
  amount : ℚ
  cost : ℚ
  orderId : Option String := none
  profitAmount : Option ℚ := none
  profitPercent : Option ℚ := none
  purchasePriceForSell : Option ℚ := none
deriving Repr, DecidableEq

/-- A JSON settings blob as stored in the `bot_settings` table: a record of
optional fields (a historical blob may miss fields added later).  The
fields mirror `BotSettings`. -/
structure SettingsPatch where
  maxCoinPrice : Option ℚ := none
  tradeAmountUSDT : Option ℚ := none
  scanIntervalMs : Option ℚ := none
  targetProfitPercent : Option ℚ := none
  stopLossPercent : Option ℚ := none
  maxOpenTrades : Option Nat := none
  rsiPeriod : Option ℚ := none
  rsiBuyThreshold : Option ℚ := none
  smaShortPeriod : Option ℚ := none
  smaLongPeriod : Option ℚ := none
  useTrailingStop : Option Bool := none
  trailingStopArmPercentage : Option ℚ := none
  trailingStopOffsetPercentage : Option ℚ := none
deriving Repr, DecidableEq

/-- `JSON.stringify` of a full `BotSettings` value: every field present. -/
def toPatch (s : BotSettings) : SettingsPatch where
  maxCoinPrice := some s.maxCoinPrice
  tradeAmountUSDT := some s.tradeAmountUSDT
  scanIntervalMs := some s.scanIntervalMs
  targetProfitPercent := some s.targetProfitPercent
  stopLossPercent := some s.stopLossPercent
  maxOpenTrades := some s.maxOpenTrades
  rsiPeriod := some s.rsiPeriod
  rsiBuyThreshold := some s.rsiBuyThreshold
  smaShortPeriod := some s.smaShortPeriod
  smaLongPeriod := some s.smaLongPeriod
  useTrailingStop := some s.useTrailingStop
  trailingStopArmPercentage := some s.trailingStopArmPercentage
  trailingStopOffsetPercentage := some s.trailingStopOffsetPercentage

/-- JavaScript object spread `{...base, ...patch}`: a field present in the
patch wins, an absent field keeps the base value (BotEngine.updateSettings
and the constructor merge, part_008 lines 47 and 124). -/
def mergeSettings (base : BotSettings) (p : SettingsPatch) : BotSettings where
  maxCoinPrice := p.maxCoinPrice.getD base.maxCoinPrice
  tradeAmountUSDT := p.tradeAmountUSDT.getD base.tradeAmountUSDT
  scanIntervalMs := p.scanIntervalMs.getD base.scanIntervalMs
  targetProfitPercent := p.targetProfitPercent.getD base.targetProfitPercent
  stopLossPercent := p.stopLossPercent.getD base.stopLossPercent
  maxOpenTrades := p.maxOpenTrades.getD base.maxOpenTrades
  rsiPeriod := p.rsiPeriod.getD base.rsiPeriod
  rsiBuyThreshold := p.rsiBuyThreshold.getD base.rsiBuyThreshold
  smaShortPeriod := p.smaShortPeriod.getD base.smaShortPeriod
  smaLongPeriod := p.smaLongPeriod.getD base.smaLongPeriod
  useTrailingStop := p.useTrailingStop.getD base.useTrailingStop
  trailingStopArmPercentage := p.trailingStopArmPercentage.getD base.trailingStopArmPercentage
  trailingStopOffsetPercentage :=
    p.trailingStopOffsetPercentage.getD base.trailingStopOffsetPercentage

/-- State of the SQLite database of SqlitePersistenceService (part_007):
`bot_settings` (single row), `active_trades` (keyed by symbol),
`trade_ledger` (keyed by id, indexed by timestamp). -/
structure Db where
  bot_settings : Option SettingsPatch := none
  active_trades : List (String × BotTradeData) := []
  trade_ledger : List CompletedTrade := []
deriving Repr, DecidableEq

/-- Empty database (fresh file after `init`). -/
def emptyDb : Db := {}

/-- `saveSettings`: `INSERT OR REPLACE INTO bot_settings (id, data) VALUES (1, ?)`
with the JSON of the full settings object. -/
def saveSettings (db : Db) (s : BotSettings) : Db :=
  { db with bot_settings := some (toPatch s) }

/-- `loadSettings`: the single `bot_settings` row, if present. -/
def loadSettings (db : Db) : Option SettingsPatch := db.bot_settings

/-- `saveActiveTrade`: `INSERT OR REPLACE INTO active_trades`. -/
def saveActiveTrade (db : Db) (symbol : String) (t : BotTradeData) : Db :=
  { db with active_trades := mapSet db.active_trades symbol t }

/-- `deleteActiveTrade`: `DELETE FROM active_trades WHERE symbol = ?`. -/
def deleteActiveTrade (db : Db) (symbol : String) : Db :=
  { db with active_trades := mapDelete db.active_trades symbol }

/-- `loadActiveTrades`: read all rows and build a `Map` keyed by symbol. -/
def loadActiveTrades (db : Db) : List (String × BotTradeData) :=
  db.active_trades.foldl (fun m r => mapSet m r.1 r.2) []

/-- Replace the row bearing the id of `t`, or append `t` when no row has
that id (the `INSERT OR REPLACE` upsert of the `trade_ledger` table,
keyed by its `id TEXT PRIMARY KEY` column). -/
def ledgerUpsert (rows : List CompletedTrade) (t : CompletedTrade) : List CompletedTrade :=
  match rows with
  | [] => [t]
  | r :: rest => if r.id = t.id then t :: rest else r :: ledgerUpsert rest t

/-- `saveLedgerItem`: `INSERT OR REPLACE INTO trade_ledger (id, timestamp, data)`. -/
def saveLedgerItem (db : Db) (t : CompletedTrade) : Db :=
  { db with trade_ledger := ledgerUpsert db.trade_ledger t }

/-- `loadLedger(limit)`: `SELECT data FROM trade_ledger ORDER BY timestamp
DESC LIMIT ?`. -/
def loadLedger (db : Db) (limit : Nat) : List CompletedTrade :=
  (sortByLe (fun a b => b.timestamp ≤ a.timestamp) db.trade_ledger).take limit

/-- Look a ledger row up by id (the `id` column is the primary key). -/
def ledgerFind (db : Db) (id : String) : Option CompletedTrade :=
  db.trade_ledger.find? (fun r => r.id == id)

/-- A ccxt ticker as consumed by the engine: optional numeric fields. -/
structure Ticker where
  symbol : String
  last : Option ℚ := none
  baseVolume : Option ℚ := none
  quoteVolume : Option ℚ := none
  percentage : Option ℚ := none
deriving Repr, DecidableEq

/-- `CcxtExchange.fetchTickers` (part_005/part_006):
`Object.values(tickersMap).filter(t => t.last !== undefined && t.last > 0)`,
applied to the raw ticker map of the venue. -/
def fetchTickers (raw : List Ticker) : List Ticker :=
  filterP (fun t => t.last ≠ none ∧ 0 < t.last.getD 0) raw

/-- One ccxt OHLCV candle `[timestamp, open, high, low, close, volume]`. -/
structure Candle where
  ts : ℚ
  openP : ℚ
  highP : ℚ
  lowP : ℚ
  close : ℚ
  volume : ℚ
deriving Repr, DecidableEq

/-- src/types.ts `Coin` (the fields the engine uses). -/
structure Coin where
  id : String
  symbol : String
  name : String
  price : ℚ
  priceChange24hPercent : ℚ
  baseAsset : String
  quoteAsset : String
  volume : ℚ
  quoteVolume : ℚ
  rsi : Option ℚ := none
  smaShort : Option ℚ := none
  smaLong : Option ℚ := none
deriving Repr, DecidableEq

/-- src/types.ts `PortfolioItem` (the fields the engine uses). -/
structure PortfolioItem where
  symbol : String
  baseAsset : String
  quoteAsset : String
  amount : ℚ
  lockedAmount : ℚ
  avgPurchasePrice : Option ℚ := none
  purchaseTimestamp : Option ℤ := none
deriving Repr, DecidableEq

/-- Order side of a placed market order. -/
inductive Side where
  | buy
  | sell
deriving Repr, DecidableEq

/-- An order request as submitted to `IExchange.placeOrder`
(`placeOrder(symbol, 'market', side, amount)`). -/
structure OrderReq where
  symbol : String
  type : String := "market"
  side : Side
  amount : ℚ
deriving Repr, DecidableEq

/-- The ccxt order object returned by `placeOrder`; the engine reads
`id, price, average, filled, cost, amount`, any numeric one of which may be
undefined except `amount`. -/
structure Fill where
  id : String
  price : Option ℚ := none
  average : Option ℚ := none
  filled : Option ℚ := none
  cost : Option ℚ := none
  amount : ℚ
deriving Repr, DecidableEq

/-- A currency row of the ccxt balance (`free`, `used`, `total` maps). -/
structure BalanceEntry where
  currency : String
  free : Option ℚ := none
  used : Option ℚ := none
  total : Option ℚ := none
deriving Repr, DecidableEq

/-- The external world one loop iteration observes: the venue's raw
tickers and OHLCV data, the `technicalindicators` library (RSI.calculate /
SMA.calculate as black boxes), the account balance, the venue's fill for
each order, and the clock. -/
structure Env where
  tickers : List Ticker
  ohlcv : String → List Candle
  rsiCalc : ℚ → List ℚ → List ℚ
  smaCalc : ℚ → List ℚ → List ℚ
  balance : List BalanceEntry
  fill : OrderReq → Fill
  now : ℤ

/-- `symbol.split('/')[0]`. -/
def splitBase (s : String) : String := String.mk (s.data.takeWhile (fun c => c ≠ '/'))

/-- `symbol.split('/')[1]` (segment after the first slash). -/
def splitQuote (s : String) : String :=
  String.mk (((s.data.dropWhile (fun c => c ≠ '/')).drop 1).takeWhile (fun c => c ≠ '/'))

/-- BotEngine.scanMarket candidate filter (part_008 lines 200-205):
USDT pair, truthy positive base volume, defined last price, symbol not in
the exclusion set. -/
def scanFilter (t : Ticker) : Prop :=
  symEndsWith t.symbol "/USDT" = true ∧
  jsTruthy t.baseVolume ∧ 0 < t.baseVolume.getD 0 ∧
  t.last ≠ none ∧
  ¬ (EXCLUDED_SYMBOLS_BY_DEFAULT.any (fun ex => symNoSlash t.symbol == ex) = true)

instance (t : Ticker) : Decidable (scanFilter t) := by
  unfold scanFilter; infer_instance

/-- Build the `Coin` for one scanned candidate (part_008 lines 209-247):
fetch 50 candles of the fixed 15m timeframe, compute the indicators over
the close series when it is long enough, keep the last value of each. -/
def coinOfTicker (s : BotSettings) (env : Env) (t : Ticker) : Coin :=
  let closes := (env.ohlcv t.symbol).map Candle.close
  let rsi := if s.rsiPeriod ≤ (closes.length : ℚ) then (env.rsiCalc s.rsiPeriod closes).getLast? else none
  let smaShort := if s.smaShortPeriod ≤ (closes.length : ℚ) then (env.smaCalc s.smaShortPeriod closes).getLast? else none
  let smaLong := if s.smaLongPeriod ≤ (closes.length : ℚ) then (env.smaCalc s.smaLongPeriod closes).getLast? else none
  { id := t.symbol
    symbol := t.symbol
    name := splitBase t.symbol
    price := t.last.getD 0
    priceChange24hPercent := jsOr t.percentage 0
    baseAsset := splitBase t.symbol
    quoteAsset := splitQuote t.symbol
    volume := jsOr t.baseVolume 0
    quoteVolume := jsOr t.quoteVolume 0
    rsi := rsi
    smaShort := smaShort
    smaLong := smaLong }

/-- BotEngine.scanMarket (part_008 lines 197-263): filter the gateway's
tickers, sort descending by quote volume, keep the top 30, attach
indicators, and sort the resulting coins ascending by price. -/
def scanMarketData (s : BotSettings) (env : Env) : List Coin :=
  let candidates := sortByLe (fun y x => jsOr x.quoteVolume 0 ≤ jsOr y.quoteVolume 0)
    (filterP scanFilter (fetchTickers env.tickers))
  let topCandidates := candidates.take 30
  sortByLe (fun y x => y.price ≤ x.price) (topCandidates.map (coinOfTicker s env))

/-- The in-memory state of BotEngine (part_008 lines 9-31) together with
the database it persists to, plus a count of the live `setInterval`
timers (`scanTimerSet` mirrors `scanTimer !== null`). -/
structure EngineState where
  status : BotStatus
  settings : BotSettings
  tradeLedger : List CompletedTrade
  activeTrades : List (String × BotTradeData)
  marketData : List Coin
  portfolio : List PortfolioItem
  usdtBalance : ℚ
  scanTimerSet : Bool
  activeTimers : Nat
  isStopping : Bool
  db : Db

/-- The BotEngine constructor (part_008 lines 33-52): load persisted
active trades (kept only when non-empty, same effect as always keeping),
merge persisted settings over the initial settings with an object spread,
and load the newest 50 ledger rows. -/
def mkEngine (initialSettings : BotSettings) (db : Db) : EngineState :=
  let loadedTrades := loadActiveTrades db
  { status := BotStatus.INITIALIZING
    settings := match loadSettings db with
      | some p => mergeSettings initialSettings p
      | none => initialSettings
    tradeLedger := loadLedger db 50
    activeTrades := if loadedTrades.length > 0 then loadedTrades else []
    marketData := []
    portfolio := []
    usdtBalance := 0
    scanTimerSet := false
    activeTimers := 0
    isStopping := false
    db := db }

/-- One balance row of BotEngine.refreshAccount (part_008 lines 143-163):
rows with truthy positive total either set the USDT balance (from `free`)
or append a portfolio item joined with the active-trade data. -/
def refreshStep (trades : List (String × BotTradeData))
    (acc : List PortfolioItem × ℚ) (e : BalanceEntry) : List PortfolioItem × ℚ :=
  if jsTruthy e.total ∧ 0 < e.total.getD 0 then
    if e.currency = "USDT" then (acc.1, jsOr e.free 0)
    else
      (acc.1 ++ [{ symbol := e.currency ++ "/USDT"
                   baseAsset := e.currency
                   quoteAsset := "USDT"
                   amount := jsOr e.free 0
                   lockedAmount := jsOr e.used 0
                   avgPurchasePrice := (mapGet trades (e.currency ++ "/USDT")).map BotTradeData.purchasePrice
                   purchaseTimestamp := (mapGet trades (e.currency ++ "/USDT")).map BotTradeData.timestamp }],
       acc.2)
  else acc

/-- BotEngine.refreshAccount (part_008 lines 136-171). -/
def refreshAccountState (st : EngineState) (env : Env) : EngineState :=
  let r := env.balance.foldl (refreshStep st.activeTrades) ([], st.usdtBalance)
  { st with portfolio := r.1, usdtBalance := r.2 }

/-- BotEngine.scanMarket as a state transformer. -/
def scanMarketState (st : EngineState) (env : Env) : EngineState :=
  { st with marketData := scanMarketData st.settings env }

/-- `initialStopLossPrice` (part_008 line 283). -/
def initialStopLossPrice (s : BotSettings) (td : BotTradeData) : ℚ :=
  td.purchasePrice * (1 - s.stopLossPercent / 100)

/-- The high-water-mark update (part_008 lines 287-292): raise
`highestPriceSinceBuy` to the current price when the current price
exceeds `highestPriceSinceBuy || purchasePrice`. -/
def updateHighestPrice (td : BotTradeData) (currentPrice : ℚ) : BotTradeData :=
  if jsOr td.highestPriceSinceBuy td.purchasePrice < currentPrice
  then { td with highestPriceSinceBuy := some currentPrice } else td

/-- `effectiveStopLossPrice` (part_008 lines 284-298): the initial stop,
overwritten by the trailing stop `high * (1 - offset/100)` when trailing
is enabled and the (updated) high-water mark is truthy and exceeds the
arming threshold `purchasePrice * (1 + armPct/100)`. -/
def effectiveStopLossPrice (s : BotSettings) (td : BotTradeData) (currentPrice : ℚ) : ℚ :=
  let initial := initialStopLossPrice s td
  if s.useTrailingStop then
    match (updateHighestPrice td currentPrice).highestPriceSinceBuy with
    | some h =>
      if h ≠ 0 ∧ td.purchasePrice * (1 + s.trailingStopArmPercentage / 100) < h
      then h * (1 - s.trailingStopOffsetPercentage / 100)
      else initial
    | none => initial
  else initial

/-- `targetPrice` (part_008 line 300). -/
def targetPrice (s : BotSettings) (td : BotTradeData) : ℚ :=
  td.purchasePrice * (1 + s.targetProfitPercent / 100)

/-- Reason attached to a sell decision. -/
inductive SellReason where
  | takeProfit
  | stopLoss
deriving Repr, DecidableEq

/-- The sell decision (part_008 lines 302-311): take profit when
`currentPrice >= targetPrice`, else stop loss when
`currentPrice <= effectiveStopLossPrice`, else hold. -/
def sellDecision (s : BotSettings) (td : BotTradeData) (currentPrice : ℚ) : Option SellReason :=
  if targetPrice s td ≤ currentPrice then some SellReason.takeProfit
  else if currentPrice ≤ effectiveStopLossPrice s td currentPrice then some SellReason.stopLoss
  else none

/-- Accumulator of one `executeStrategy` run: the mutable state it
touches plus the trace of the orders it places (paired with the market
price at decision time) and of the ledger rows it appends. -/
structure StratAcc where
  activeTrades : List (String × BotTradeData)
  db : Db
  tradeLedger : List CompletedTrade
  newRows : List CompletedTrade
  orders : List (OrderReq × ℚ)

/-- One iteration of the sell loop of BotEngine.executeStrategy
(part_008 lines 267-354) for the entry `(symbol, tradeData)`. -/
def processTrade (s : BotSettings) (marketData : List Coin)
    (portfolio : List PortfolioItem) (fill : OrderReq → Fill) (now : ℤ)
    (acc : StratAcc) (entry : String × BotTradeData) : StratAcc :=
  match marketData.find? (fun c => c.symbol == entry.1) with
  | none => acc
  | some coin =>
    if coin.price = 0 then acc
    else
      let currentPrice := coin.price
      match portfolio.find? (fun p => p.symbol == entry.1) with
      | none =>
        { acc with activeTrades := mapDelete acc.activeTrades entry.1
                   db := deleteActiveTrade acc.db entry.1 }
      | some portfolioItem =>
        if portfolioItem.amount ≤ 0 then
          { acc with activeTrades := mapDelete acc.activeTrades entry.1
                     db := deleteActiveTrade acc.db entry.1 }
        else
          let tradeData := entry.2
          let updated := s.useTrailingStop = true ∧
            jsOr tradeData.highestPriceSinceBuy tradeData.purchasePrice < currentPrice
          let td2 := if updated then { tradeData with highestPriceSinceBuy := some currentPrice }
            else tradeData
          let trades2 := if updated then mapSet acc.activeTrades entry.1 td2 else acc.activeTrades
          let db2 := if updated then saveActiveTrade acc.db entry.1 td2 else acc.db
          match sellDecision s tradeData currentPrice with
          | none => { acc with activeTrades := trades2, db := db2 }
          | some _reason =>
            let amountToSell := portfolioItem.amount
            let value := amountToSell * currentPrice
            if value < MIN_TRADE_VALUE_USDT then
              { acc with activeTrades := trades2, db := db2 }
            else
              let req : OrderReq := { symbol := entry.1, side := Side.sell, amount := amountToSell }
              let order := fill req
              let cost := jsOr order.cost (order.amount * order.price.getD 0)
              let profit := cost - tradeData.purchasePrice * order.amount
              let profitPercent := profit / (tradeData.purchasePrice * order.amount) * 100
              let row : CompletedTrade :=
                { id := order.id
                  timestamp := now
                  type := TradeType.SELL
                  pair := entry.1
                  price := jsOr order.price currentPrice
                  amount := order.amount
                  cost := cost
                  orderId := some order.id
                  profitAmount := some profit
                  profitPercent := some profitPercent
                  purchasePriceForSell := some tradeData.purchasePrice }
              { activeTrades := mapDelete trades2 entry.1
                db := deleteActiveTrade (saveLedgerItem db2 row) entry.1
                tradeLedger := row :: acc.tradeLedger
                newRows := acc.newRows ++ [row]
                orders := acc.orders ++ [(req, currentPrice)] }

/-- The buy-candidate filter of BotEngine.executeStrategy (part_008
lines 360-370). -/
def buyFilter (s : BotSettings) (trades : List (String × BotTradeData)) (c : Coin) : Prop :=
  ¬ mapHas trades c.symbol ∧
  ¬ (s.maxCoinPrice < c.price) ∧
  ¬ (EXCLUDED_SYMBOLS_BY_DEFAULT.any (fun ex => symNoSlash c.symbol == ex) = true) ∧
  c.rsi ≠ none ∧ c.smaShort ≠ none ∧ c.smaLong ≠ none ∧
  ¬ (s.rsiBuyThreshold ≤ c.rsi.getD 0) ∧
  ¬ (c.smaShort.getD 0 ≤ c.smaLong.getD 0)

instance (s : BotSettings) (trades : List (String × BotTradeData)) (c : Coin) :
    Decidable (buyFilter s trades c) := by
  unfold buyFilter; infer_instance

/-- The buy path of BotEngine.executeStrategy (part_008 lines 360-417):
sort the filtered candidates descending by quote volume, take the first;
refuse when `activeTrades.size >= maxOpenTrades` or
`usdtBalance < tradeAmountUSDT`; otherwise place a market buy sized
`tradeAmountUSDT / price` and record the position and a BUY ledger row. -/
def buyPhase (s : BotSettings) (marketData : List Coin) (usdtBalance : ℚ)
    (fill : OrderReq → Fill) (now : ℤ) (acc : StratAcc) : StratAcc :=
  let potentialBuys := sortByLe (fun y x => x.quoteVolume ≤ y.quoteVolume)
    (filterP (buyFilter s acc.activeTrades) marketData)
  match potentialBuys with
  | [] => acc
  | candidate :: _ =>
    if s.maxOpenTrades ≤ acc.activeTrades.length then acc
    else if usdtBalance < s.tradeAmountUSDT then acc
    else
      let amount := s.tradeAmountUSDT / candidate.price
      let req : OrderReq := { symbol := candidate.symbol, side := Side.buy, amount := amount }
      let order := fill req
      let realPrice := jsOr order.average (jsOr order.price candidate.price)
      let filledAmount := jsOr order.filled order.amount
      let tradeRecord : BotTradeData :=
        { purchasePrice := realPrice
          amount := filledAmount
          timestamp := now
          highestPriceSinceBuy := some realPrice }
      let row : CompletedTrade :=
        { id := order.id
          timestamp := now
          type := TradeType.BUY
          pair := candidate.symbol
          price := realPrice
          amount := filledAmount
          cost := jsOr order.cost (filledAmount * realPrice)
          orderId := some order.id }
      { activeTrades := mapSet acc.activeTrades candidate.symbol tradeRecord
        db := saveLedgerItem (saveActiveTrade acc.db candidate.symbol tradeRecord) row
        tradeLedger := row :: acc.tradeLedger
        newRows := acc.newRows ++ [row]
        orders := acc.orders ++ [(req, candidate.price)] }

/-- BotEngine.executeStrategy (part_008 lines 265-418): the sell loop
over the active trades followed by the buy path. -/
def executeStrategy (st : EngineState) (env : Env) : StratAcc :=
  let acc0 : StratAcc :=
    { activeTrades := st.activeTrades, db := st.db, tradeLedger := st.tradeLedger
      newRows := [], orders := [] }
  let acc1 := st.activeTrades.foldl
    (processTrade st.settings st.marketData st.portfolio env.fill env.now) acc0
  buyPhase st.settings st.marketData st.usdtBalance env.fill env.now acc1

/-- Write an `executeStrategy` result back into the engine state. -/
def applyStrat (st : EngineState) (acc : StratAcc) : EngineState :=
  { st with activeTrades := acc.activeTrades, db := acc.db, tradeLedger := acc.tradeLedger }

/-- BotEngine.executeLoop (part_008 lines 173-195): under the engine
mutex, bail out when stopping or not running, else refresh the account,
scan the market and run the strategy. -/
def executeLoop (st : EngineState) (env : Env) : EngineState :=
  if st.isStopping = true ∨ st.status ≠ BotStatus.RUNNING then st
  else
    let st1 := refreshAccountState st env
    let st2 := scanMarketState st1 env
    applyStrat st2 (executeStrategy st2 env)

/-- The mutexed part of BotEngine.start (part_008 lines 90-102), without
the early return: reset the kill switch, go RUNNING, clear any existing
timer and create the scan timer. -/
def startCore (st : EngineState) : EngineState :=
  { st with isStopping := false
            status := BotStatus.RUNNING
            activeTimers := (if st.scanTimerSet then st.activeTimers - 1 else st.activeTimers) + 1
            scanTimerSet := true }

/-- BotEngine.start (part_008 lines 88-106): when already RUNNING, log a
warning and leave the timer alone; otherwise arm the timer; in both cases
the trailing `this.executeLoop()` call runs one immediate iteration. -/
def startOp (st : EngineState) (env : Env) : EngineState :=
  executeLoop (if st.status = BotStatus.RUNNING then st else startCore st) env

/-- BotEngine.stop (part_008 lines 108-120): set the kill switch, cancel
the timer and go STOPPED (`hard` only changes logging). -/
def stopOp (st : EngineState) (_hard : Bool) : EngineState :=
  { st with isStopping := true
            activeTimers := if st.scanTimerSet then st.activeTimers - 1 else st.activeTimers
            scanTimerSet := false
            status := BotStatus.STOPPED }

/-- BotEngine.updateSettings (part_008 lines 122-134): spread-merge the
payload over the current settings, persist the merged snapshot, and (when
running) re-arm the timer with the new interval — which leaves the number
of live timers unchanged. -/
def updateSettingsOp (st : EngineState) (p : SettingsPatch) : EngineState :=
  let s2 := mergeSettings st.settings p
  { st with settings := s2, db := saveSettings st.db s2 }

/-- BotEngine.initialize (part_008 lines 70-86): on gateway success go
STOPPED and run the first refreshAccount; on failure go ERROR. -/
def initOp (st : EngineState) (ok : Bool) (env : Env) : EngineState :=
  if ok then refreshAccountState { st with status := BotStatus.STOPPED } env
  else { st with status := BotStatus.ERROR }

/-- The commands a driver can issue to the engine, each carrying the
external world it observes. -/
inductive Cmd where
  | init (ok : Bool) (env : Env)
  | start (env : Env)
  | stop (hard : Bool)
  | updateSettings (p : SettingsPatch)
  | tick (env : Env)

/-- Interpret one command. -/
def runCmd (st : EngineState) : Cmd → EngineState
  | Cmd.init ok env => initOp st ok env
  | Cmd.start env => startOp st env
  | Cmd.stop hard => stopOp st hard
  | Cmd.updateSettings p => updateSettingsOp st p
  | Cmd.tick env => executeLoop st env

/-- Interpret a command sequence from a given state. -/
def runCmds (st : EngineState) (cmds : List Cmd) : EngineState :=
  cmds.foldl runCmd st

/-- The key column of an association list. -/
def keys (m : List (String × β)) : List String := m.map Prod.fst

lemma mapGet_eq_none_iff (m : List (String × β)) (k : String) :
    mapGet m k = none ↔ k ∉ keys m := by
  induction m with
  | nil => simp [mapGet, keys]
  | cons e rest ih =>
    by_cases h : e.1 = k
    · simp [mapGet, keys, h]
    · simp only [mapGet, List.find?_cons] at ih ⊢
      rw [show (e.1 == k) = false by simpa using h]
      simpa [keys, h, Ne.symm h] using ih

lemma mapHas_iff_mem_keys (m : List (String × β)) (k : String) :
    mapHas m k ↔ k ∈ keys m := by
  rw [mapHas, Option.isSome_iff_ne_none, ne_eq, mapGet_eq_none_iff, not_not]

lemma mapHas_of_mem (m : List (String × β)) (e : String × β) (he : e ∈ m) :
    mapHas m e.1 := by
  rw [mapHas_iff_mem_keys]
  exact List.mem_map_of_mem Prod.fst he

lemma mapSet_of_not_has (m : List (String × β)) (k : String) (v : β)
    (h : k ∉ keys m) : mapSet m k v = m ++ [(k, v)] := by
  induction m with
  | nil => simp [mapSet]
  | cons e rest ih =>
    simp only [keys, List.map_cons, List.mem_cons] at h
    push_neg at h
    simp [mapSet, Ne.symm h.1, ih (by simpa [keys] using h.2)]

lemma keys_mapSet_of_has (m : List (String × β)) (k : String) (v : β)
    (h : k ∈ keys m) : keys (mapSet m k v) = keys m := by
  induction m with
  | nil => simp [keys] at h
  | cons e rest ih =>
    by_cases he : e.1 = k
    · simp [mapSet, he, keys]
    · simp only [keys, List.map_cons, List.mem_cons] at h
      rcases h with h | h
      · exact absurd h.symm he
      · have hrec := ih (by simpa [keys] using h)
        simp only [keys, List.map_cons] at hrec ⊢
        simp [mapSet, he, hrec]

lemma length_mapSet_of_has (m : List (String × β)) (k : String) (v : β)
    (h : k ∈ keys m) : (mapSet m k v).length = m.length := by
  have := keys_mapSet_of_has m k v h
  have h1 : (keys (mapSet m k v)).length = (keys m).length := by rw [this]
  simpa [keys] using h1

lemma length_mapSet_le (m : List (String × β)) (k : String) (v : β) :
    (mapSet m k v).length ≤ m.length + 1 := by
  induction m with
  | nil => simp [mapSet]
  | cons e rest ih =>
    by_cases he : e.1 = k
    · simp [mapSet, he]
    · simpa [mapSet, he] using ih

lemma length_mapDelete_le (m : List (String × β)) (k : String) :
    (mapDelete m k).length ≤ m.length := by
  induction m with
  | nil => simp [mapDelete]
  | cons e rest ih =>
    by_cases he : e.1 = k
    · simp [mapDelete, he]
    · simpa [mapDelete, he] using Nat.succ_le_succ ih

lemma keys_mapDelete_sublist (m : List (String × β)) (k : String) :
    (keys (mapDelete m k)).Sublist (keys m) := by
  induction m with
  | nil => simp [mapDelete, keys]
  | cons e rest ih =>
    by_cases he : e.1 = k
    · simpa [mapDelete, he, keys] using List.sublist_cons_self e.1 (keys rest)
    · simpa [mapDelete, he, keys] using List.Sublist.cons₂ e.1 ih

lemma nodup_keys_mapDelete (m : List (String × β)) (k : String)
    (h : (keys m).Nodup) : (keys (mapDelete m k)).Nodup :=
  (keys_mapDelete_sublist m k).nodup h

lemma nodup_keys_mapSet (m : List (String × β)) (k : String) (v : β)
    (h : (keys m).Nodup) : (keys (mapSet m k v)).Nodup := by
  by_cases hk : k ∈ keys m
  · rw [keys_mapSet_of_has m k v hk]; exact h
  · rw [mapSet_of_not_has m k v hk]
    simpa [keys] using (List.nodup_append.mpr ⟨h, by simp, by simpa [keys] using hk⟩)

lemma mapGet_mapDelete_self (m : List (String × β)) (k : String)
    (h : (keys m).Nodup) : mapGet (mapDelete m k) k = none := by
  rw [mapGet_eq_none_iff]
  induction m with
  | nil => simp [mapDelete, keys]
  | cons e rest ih =>
    simp only [keys, List.map_cons, List.nodup_cons] at h
    by_cases he : e.1 = k
    · subst he
      simpa [mapDelete, keys] using h.1
    · simpa [mapDelete, he, keys, Ne.symm he] using ih h.2

lemma mapHas_mapDelete_of_ne (m : List (String × β)) (k k' : String) (hk : k' ≠ k) :
    mapHas (mapDelete m k) k' ↔ mapHas m k' := by
  rw [mapHas_iff_mem_keys, mapHas_iff_mem_keys]
  constructor
  · exact fun h => (keys_mapDelete_sublist m k).mem h
  · intro h
    induction m with
    | nil => simpa [keys] using h
    | cons e rest ih =>
      by_cases he : e.1 = k
      · subst he
        simp only [keys, List.map_cons, List.mem_cons] at h
        rcases h with h | h
        · exact absurd h hk
        · simpa [mapDelete, keys] using h
      · simp only [keys, List.map_cons, List.mem_cons] at h
        rcases h with h | h
        · simp [mapDelete, he, keys, h]
        · simpa [mapDelete, he, keys] using Or.inr (by simpa [keys] using ih (by simpa [keys] using h))

lemma mapHas_mapSet_of_ne (m : List (String × β)) (k k' : String) (v : β) (hk : k' ≠ k) :
    mapHas (mapSet m k v) k' ↔ mapHas m k' := by
  rw [mapHas_iff_mem_keys, mapHas_iff_mem_keys]
  by_cases h : k ∈ keys m
  · rw [keys_mapSet_of_has m k v h]
  · rw [mapSet_of_not_has m k v h]
    simp [keys, hk]

lemma loadActiveTrades_eq (rows : List (String × BotTradeData)) (h : (keys rows).Nodup) :
    rows.foldl (fun m r => mapSet m r.1 r.2) [] = rows := by
  suffices H : ∀ (rows acc : List (String × BotTradeData)),
      (keys (acc ++ rows)).Nodup → rows.foldl (fun m r => mapSet m r.1 r.2) acc = acc ++ rows by
    simpa using H rows [] (by simpa using h)
  intro rows
  induction rows with
  | nil => simp
  | cons r rest ih =>
    intro acc hacc
    have hnot : r.1 ∉ keys acc := by
      intro hmem
      simp only [keys, List.map_append, List.nodup_append] at hacc
      exact hacc.2.2 (by simpa [keys] using hmem) (by simp)
    rw [List.foldl_cons, mapSet_of_not_has acc r.1 r.2 hnot]
    have hacc2 : (keys ((acc ++ [(r.1, r.2)]) ++ rest)).Nodup := by
      have he : (acc ++ [(r.1, r.2)]) ++ rest = acc ++ r :: rest := by simp
      rw [he]; exact hacc
    have := ih (acc ++ [(r.1, r.2)]) hacc2
    simpa using this

lemma ledgerUpsert_of_not_mem (rows : List CompletedTrade) (t : CompletedTrade)
    (h : t.id ∉ rows.map CompletedTrade.id) : ledgerUpsert rows t = rows ++ [t] := by
  induction rows with
  | nil => simp [ledgerUpsert]
  | cons r rest ih =>
    simp only [List.map_cons, List.mem_cons] at h
    push_neg at h
    simp [ledgerUpsert, Ne.symm h.1, ih h.2]

lemma ledgerUpsert_ids_of_mem (rows : List CompletedTrade) (t : CompletedTrade)
    (h : t.id ∈ rows.map CompletedTrade.id) :
    (ledgerUpsert rows t).map CompletedTrade.id = rows.map CompletedTrade.id := by
  induction rows with
  | nil => simp at h
  | cons r rest ih =>
    by_cases he : r.id = t.id
    · simp [ledgerUpsert, he]
    · simp only [List.map_cons, List.mem_cons] at h
      rcases h with h | h
      · exact absurd h.symm he
      · simp [ledgerUpsert, he, ih h]

lemma nodup_ledgerUpsert (rows : List CompletedTrade) (t : CompletedTrade)
    (h : (rows.map CompletedTrade.id).Nodup) :
    ((ledgerUpsert rows t).map CompletedTrade.id).Nodup := by
  by_cases hm : t.id ∈ rows.map CompletedTrade.id
  · rw [ledgerUpsert_ids_of_mem rows t hm]; exact h
  · rw [ledgerUpsert_of_not_mem rows t hm]
    simpa using List.nodup_append.mpr ⟨h, by simp, by simpa using hm⟩

lemma find?_ledgerUpsert_self (rows : List CompletedTrade) (t : CompletedTrade) :
    (ledgerUpsert rows t).find? (fun r => r.id == t.id) = some t := by
  induction rows with
  | nil => simp [ledgerUpsert]
  | cons r rest ih =>
    by_cases he : r.id = t.id
    · simp [ledgerUpsert, he]
    · simp [ledgerUpsert, he, ih]

/-- C6: for every settings value S, SaveSettings(S) followed by
LoadSettings() returns exactly the stored JSON of S (so any consumer
merging it over any base recovers S); and for every symbol and trade
data, SaveActiveTrade followed by DeleteActiveTrade followed by
LoadActiveTrades yields a map that does not contain the symbol. -/
theorem C6_persistence_round_trip (db : Db) (base S : BotSettings)
    (sym : String) (T : BotTradeData)
    (hdb : (keys db.active_trades).Nodup) :
    loadSettings (saveSettings db S) = some (toPatch S) ∧
    mergeSettings base (toPatch S) = S ∧
    mapGet (loadActiveTrades (deleteActiveTrade (saveActiveTrade db sym T) sym)) sym = none := by
  refine ⟨rfl, rfl, ?_⟩
  have hset : (keys (mapSet db.active_trades sym T)).Nodup :=
    nodup_keys_mapSet db.active_trades sym T hdb
  have hrows : (keys (mapDelete (mapSet db.active_trades sym T) sym)).Nodup :=
    nodup_keys_mapDelete _ sym hset
  show mapGet ((mapDelete (mapSet db.active_trades sym T) sym).foldl
    (fun m r => mapSet m r.1 r.2) []) sym = none
  rw [loadActiveTrades_eq _ hrows]
  exact mapGet_mapDelete_self _ sym hset

/-- Witness for C6 at a concrete database, settings value and trade. -/
def settingsA : BotSettings where
  maxCoinPrice := 1000
  tradeAmountUSDT := 10
  scanIntervalMs := 5000
  targetProfitPercent := 10
  stopLossPercent := 5
  maxOpenTrades := 2
  rsiPeriod := 14
  rsiBuyThreshold := 30
  smaShortPeriod := 9
  smaLongPeriod := 21
  useTrailingStop := false
  trailingStopArmPercentage := 1
  trailingStopOffsetPercentage := 1/2

/-- A second settings value, used as a merge base. -/
def settingsB : BotSettings :=
  { settingsA with tradeAmountUSDT := 25, maxOpenTrades := 7 }

/-- A concrete open position. -/
def tradeA : BotTradeData where
  purchasePrice := 1
  amount := 10
  timestamp := 0

theorem C6_witness :
    loadSettings (saveSettings emptyDb settingsA) = some (toPatch settingsA) ∧
    mergeSettings settingsB (toPatch settingsA) = settingsA ∧
    mapGet (loadActiveTrades (deleteActiveTrade
      (saveActiveTrade emptyDb "LTC/USDT" tradeA) "LTC/USDT")) "LTC/USDT" = none :=
  C6_persistence_round_trip emptyDb settingsB settingsA "LTC/USDT" tradeA
    (by simp [emptyDb, keys])

/-- C7 counterexample data: two different ledger rows sharing an id. -/
def rowX : CompletedTrade where
  id := "t1"
  timestamp := 1
  type := TradeType.BUY
  pair := "LTC/USDT"
  price := 0
  amount := 0
  cost := 0

/-- A second row with the same id as `rowX` but different content. -/
def rowY : CompletedTrade :=
  { rowX with timestamp := 2, pair := "DOGE/USDT" }

/-- A database already holding `rowX`. -/
def dbX : Db := { trade_ledger := [rowX] }

/-- C7 counterexample: saving a second CompletedTrade whose id is already
present does replace the existing row — after `saveLedgerItem dbX rowY`
the row stored under id "t1" is `rowY`, not the original `rowX`. -/
theorem C7_counterexample :
    ledgerFind dbX "t1" = some rowX ∧
    ledgerFind (saveLedgerItem dbX rowY) "t1" = some rowY ∧
    rowY ≠ rowX ∧
    (saveLedgerItem dbX rowY).trade_ledger = [rowY] := by
  refine ⟨rfl, rfl, ?_, rfl⟩
  intro h
  have := congrArg CompletedTrade.pair h
  simp [rowX, rowY] at this

/-- C7 amended: SaveLedgerItem is an upsert keyed by the primary-key id:
ids in the ledger stay unique, a save with a fresh id appends the row,
and a save whose id is already present replaces the stored row with the
new one (the ledger is not append-only under id reuse). -/
theorem C7_ledger_upsert (db : Db) (t : CompletedTrade) :
    ((db.trade_ledger.map CompletedTrade.id).Nodup →
      ((saveLedgerItem db t).trade_ledger.map CompletedTrade.id).Nodup) ∧
    (t.id ∉ db.trade_ledger.map CompletedTrade.id →
      (saveLedgerItem db t).trade_ledger = db.trade_ledger ++ [t]) ∧
    ledgerFind (saveLedgerItem db t) t.id = some t :=
  ⟨fun h => nodup_ledgerUpsert db.trade_ledger t h,
   fun h => ledgerUpsert_of_not_mem db.trade_ledger t h,
   find?_ledgerUpsert_self db.trade_ledger t⟩

theorem C7_witness :
    ((saveLedgerItem dbX rowY).trade_ledger.map CompletedTrade.id).Nodup ∧
    ledgerFind (saveLedgerItem dbX rowY) rowY.id = some rowY :=
  ⟨(C7_ledger_upsert dbX rowY).1 (by simp [dbX]),
   (C7_ledger_upsert dbX rowY).2.2⟩

/-- Trailing-stop settings with a large offset, for the C1 counterexample:
stop loss 5%, arm at 1%, trailing offset 50%. -/
def settingsTrail : BotSettings :=
  { settingsA with useTrailingStop := true
                   trailingStopArmPercentage := 1
                   trailingStopOffsetPercentage := 50 }

/-- An armed position: bought at 100, high-water mark 102 (above the
arming threshold 101). -/
def tradeTrail : BotTradeData where
  purchasePrice := 100
  amount := 1
  timestamp := 0
  highestPriceSinceBuy := some 102

/-- C1 counterexample: with stop loss 5% and trailing offset 50%, the
armed trade bought at 100 with high 102 gets effective stop
102 × (1 − 50/100) = 51, not max(initialStop, trailing) = max(95, 51) = 95;
the effective stop is strictly below the initial stop price, refuting the
claimed lower bound. -/
theorem C1_counterexample :
    tradeTrail.purchasePrice * (1 + settingsTrail.trailingStopArmPercentage / 100) < 102 ∧
    effectiveStopLossPrice settingsTrail tradeTrail 100 = 51 ∧
    initialStopLossPrice settingsTrail tradeTrail = 95 ∧
    effectiveStopLossPrice settingsTrail tradeTrail 100 ≠
      max (initialStopLossPrice settingsTrail tradeTrail)
        (102 * (1 - settingsTrail.trailingStopOffsetPercentage / 100)) ∧
    effectiveStopLossPrice settingsTrail tradeTrail 100 <
      initialStopLossPrice settingsTrail tradeTrail := by
  norm_num [effectiveStopLossPrice, initialStopLossPrice, updateHighestPrice, jsOr,
    settingsTrail, settingsA, tradeTrail]

/-- C1 amended: in the sell path, for an active trade with trailing stop
enabled whose (possibly just updated) high-water mark h is truthy and
exceeds purchasePrice × (1 + trailingStopArmPct/100), the effective stop
used for the sell decision equals h × (1 − trailingStopOffsetPct/100)
alone — the initial stop price is not taken as a floor, so the effective
stop can lie below initialStopLossPrice. -/
theorem C1_trailing_stop (s : BotSettings) (td : BotTradeData) (price h : ℚ)
    (hTrail : s.useTrailingStop = true)
    (hHigh : (updateHighestPrice td price).highestPriceSinceBuy = some h)
    (hNz : h ≠ 0)
    (hArmed : td.purchasePrice * (1 + s.trailingStopArmPercentage / 100) < h) :
    effectiveStopLossPrice s td price = h * (1 - s.trailingStopOffsetPercentage / 100) := by
  simp [effectiveStopLossPrice, hTrail, hHigh, hNz, hArmed]

theorem C1_witness :
    effectiveStopLossPrice settingsTrail tradeTrail 100 =
      102 * (1 - settingsTrail.trailingStopOffsetPercentage / 100) :=
  C1_trailing_stop settingsTrail tradeTrail 100 102
    (by simp [settingsTrail, settingsA])
    (by norm_num [updateHighestPrice, jsOr, tradeTrail])
    (by norm_num)
    (by norm_num [tradeTrail, settingsTrail, settingsA])

/-- C5: the sell decision gives take-profit strict priority: whenever
`price ≥ targetPrice` the decision is "Take Profit" even if
simultaneously `price ≤ effectiveStop`; and when
`price < targetPrice` and `price > effectiveStop`, no sell is decided. -/
theorem C5_sell_priority (s : BotSettings) (td : BotTradeData) (price : ℚ) :
    (targetPrice s td ≤ price → price ≤ effectiveStopLossPrice s td price →
      sellDecision s td price = some SellReason.takeProfit) ∧
    (price < targetPrice s td → effectiveStopLossPrice s td price < price →
      sellDecision s td price = none) := by
  constructor
  · intro h1 _h2
    simp [sellDecision, h1]
  · intro h1 h2
    simp [sellDecision, not_le.mpr h1, not_le.mpr h2]

/-- Extreme settings for the C5 witness: a negative stop-loss percent
puts the initial stop at 120, above the target 110. -/
def settingsExtreme : BotSettings :=
  { settingsA with stopLossPercent := -20 }

/-- Position bought at 100. -/
def tradeHundred : BotTradeData where
  purchasePrice := 100
  amount := 1
  timestamp := 0

theorem C5_witness :
    sellDecision settingsExtreme tradeHundred 110 = some SellReason.takeProfit ∧
    (110 : ℚ) ≤ effectiveStopLossPrice settingsExtreme tradeHundred 110 ∧
    sellDecision settingsA tradeHundred 105 = none := by
  refine ⟨?_, ?_, ?_⟩
  · exact (C5_sell_priority settingsExtreme tradeHundred 110).1
      (by norm_num [targetPrice, tradeHundred, settingsExtreme, settingsA])
      (by norm_num [effectiveStopLossPrice, initialStopLossPrice, settingsExtreme,
        settingsA, tradeHundred])
  · norm_num [effectiveStopLossPrice, initialStopLossPrice, settingsExtreme, settingsA,
      tradeHundred]
  · exact (C5_sell_priority settingsA tradeHundred 105).2
      (by norm_num [targetPrice, tradeHundred, settingsA])
      (by norm_num [effectiveStopLossPrice, initialStopLossPrice, settingsA, tradeHundred])

/-- The profit identities a SELL ledger row must satisfy (stated over the
fields of the row itself). -/
def sellRowOk (r : CompletedTrade) : Prop :=
  r.type = TradeType.SELL →
  ∃ pp, r.purchasePriceForSell = some pp ∧
    r.profitAmount = some (r.cost - pp * r.amount) ∧
    r.profitPercent = some ((r.cost - pp * r.amount) / (pp * r.amount) * 100)

lemma processTrade_newRows (s : BotSettings) (md : List Coin)
    (pf : List PortfolioItem) (fill : OrderReq → Fill) (now : ℤ)
    (acc : StratAcc) (e : String × BotTradeData) :
    ∀ r ∈ (processTrade s md pf fill now acc e).newRows, r ∈ acc.newRows ∨ sellRowOk r := by
  intro r hr
  simp only [processTrade] at hr
  split at hr
  · exact Or.inl hr
  · split at hr
    · exact Or.inl hr
    · split at hr
      · exact Or.inl hr
      · split at hr
        · exact Or.inl hr
        · split at hr
          · exact Or.inl hr
          · split at hr
            · exact Or.inl hr
            · simp only [List.mem_append, List.mem_singleton] at hr
              rcases hr with hr | hr
              · exact Or.inl hr
              · subst hr
                exact Or.inr (fun _ => ⟨_, rfl, rfl, rfl⟩)

lemma sellLoop_newRows (s : BotSettings) (md : List Coin)
    (pf : List PortfolioItem) (fill : OrderReq → Fill) (now : ℤ)
    (entries : List (String × BotTradeData)) :
    ∀ acc : StratAcc, (∀ r ∈ acc.newRows, sellRowOk r) →
    ∀ r ∈ (entries.foldl (processTrade s md pf fill now) acc).newRows, sellRowOk r := by
  induction entries with
  | nil => intro acc h; simpa using h
  | cons e rest ih =>
    intro acc h
    rw [List.foldl_cons]
    refine ih (processTrade s md pf fill now acc e) ?_
    intro r hr
    rcases processTrade_newRows s md pf fill now acc e r hr with h1 | h1
    · exact h r h1
    · exact h1

lemma buyPhase_newRows (s : BotSettings) (md : List Coin) (usdt : ℚ)
    (fill : OrderReq → Fill) (now : ℤ) (acc : StratAcc) :
    ∀ r ∈ (buyPhase s md usdt fill now acc).newRows,
      r ∈ acc.newRows ∨ r.type = TradeType.BUY := by
  intro r hr
  simp only [buyPhase] at hr
  split at hr
  · exact Or.inl hr
  · split at hr
    · exact Or.inl hr
    · split at hr
      · exact Or.inl hr
      · simp only [List.mem_append, List.mem_singleton] at hr
        rcases hr with hr | hr
        · exact Or.inl hr
        · subst hr
          exact Or.inr rfl

/-- C2: every CompletedTrade row of type SELL that one execution of the
strategy appends to the ledger satisfies
profitAmount = cost − purchasePriceForSell × amount and
profitPercent = profitAmount / (purchasePriceForSell × amount) × 100,
over the fields stored in that same row. -/
theorem C2_sell_row_profit (st : EngineState) (env : Env) (r : CompletedTrade)
    (hr : r ∈ (executeStrategy st env).newRows) : sellRowOk r := by
  simp only [executeStrategy] at hr
  rcases buyPhase_newRows st.settings st.marketData st.usdtBalance env.fill env.now _ r hr
    with h | h
  · exact sellLoop_newRows st.settings st.marketData st.portfolio env.fill env.now
      st.activeTrades _ (by simp) r h
  · intro hs
    rw [hs] at h
    exact absurd h (by simp)

/-- Market snapshot for the witness sell: LTC/USDT trading at 2. -/
def coinSell : Coin where
  id := "LTC/USDT"
  symbol := "LTC/USDT"
  name := "LTC"
  price := 2
  priceChange24hPercent := 0
  baseAsset := "LTC"
  quoteAsset := "USDT"
  volume := 5
  quoteVolume := 5

/-- Portfolio row holding 10 LTC. -/
def pfSell : PortfolioItem where
  symbol := "LTC/USDT"
  baseAsset := "LTC"
  quoteAsset := "USDT"
  amount := 10
  lockedAmount := 0

/-- Engine state about to take profit on LTC/USDT bought at 1. -/
def stSell : EngineState where
  status := BotStatus.RUNNING
  settings := settingsA
  tradeLedger := []
  activeTrades := [("LTC/USDT", tradeA)]
  marketData := [coinSell]
  portfolio := [pfSell]
  usdtBalance := 0
  scanTimerSet := true
  activeTimers := 1
  isStopping := false
  db := emptyDb

/-- Environment for the witness sell: the venue fills the market sell of
10 LTC at 2. -/
def envSell : Env where
  tickers := []
  ohlcv := fun _ => []
  rsiCalc := fun _ _ => []
  smaCalc := fun _ _ => []
  balance := []
  fill := fun req => { id := "s1", price := some 2, average := some 2,
                       filled := some req.amount, amount := req.amount }
  now := 0

/-- The SELL row the witness run appends. -/
def rowSell : CompletedTrade where
  id := "s1"
  timestamp := 0
  type := TradeType.SELL
  pair := "LTC/USDT"
  price := 2
  amount := 10
  cost := 20
  orderId := some "s1"
  profitAmount := some 10
  profitPercent := some 100
  purchasePriceForSell := some 1

lemma rowSell_mem : rowSell ∈ (executeStrategy stSell envSell).newRows := by
  repeat first
  | norm_num [executeStrategy, processTrade, buyPhase, sellDecision, targetPrice,
      effectiveStopLossPrice, initialStopLossPrice, updateHighestPrice, jsOr, jsOrQ,
      filterP, sortByLe, insertLe, buyFilter, mapGet, mapHas, mapSet, mapDelete,
      saveLedgerItem, saveActiveTrade, deleteActiveTrade, ledgerUpsert,
      MIN_TRADE_VALUE_USDT, EXCLUDED_SYMBOLS_BY_DEFAULT,
      stSell, envSell, settingsA, tradeA, coinSell, pfSell, rowSell, emptyDb]
  | simp [symNoSlash, removeFirstSlash]
  | norm_num

theorem C2_witness :
    ∃ pp, rowSell.purchasePriceForSell = some pp ∧
      rowSell.profitAmount = some (rowSell.cost - pp * rowSell.amount) ∧
      rowSell.profitPercent =
        some ((rowSell.cost - pp * rowSell.amount) / (pp * rowSell.amount) * 100) :=
  C2_sell_row_profit stSell envSell rowSell rowSell_mem rfl

/-- C10: updateSettings merges rather than replaces — each field present
in the (possibly partial) payload takes the payload's value, each absent
field keeps its prior value; the merged snapshot (not the raw payload) is
what saveSettings persists; and the constructor applies the same spread
merge to settings loaded from persistence. -/
theorem C10_update_settings_merge (st : EngineState) (p : SettingsPatch)
    (base inits : BotSettings) (db : Db) (q : SettingsPatch) :
    ((∀ v, p.maxCoinPrice = some v → (mergeSettings base p).maxCoinPrice = v) ∧
     (p.maxCoinPrice = none → (mergeSettings base p).maxCoinPrice = base.maxCoinPrice) ∧
     (∀ v, p.tradeAmountUSDT = some v → (mergeSettings base p).tradeAmountUSDT = v) ∧
     (p.tradeAmountUSDT = none → (mergeSettings base p).tradeAmountUSDT = base.tradeAmountUSDT) ∧
     (∀ v, p.scanIntervalMs = some v → (mergeSettings base p).scanIntervalMs = v) ∧
     (p.scanIntervalMs = none → (mergeSettings base p).scanIntervalMs = base.scanIntervalMs) ∧
     (∀ v, p.targetProfitPercent = some v → (mergeSettings base p).targetProfitPercent = v) ∧
     (p.targetProfitPercent = none →
       (mergeSettings base p).targetProfitPercent = base.targetProfitPercent) ∧
     (∀ v, p.stopLossPercent = some v → (mergeSettings base p).stopLossPercent = v) ∧
     (p.stopLossPercent = none → (mergeSettings base p).stopLossPercent = base.stopLossPercent) ∧
     (∀ v, p.maxOpenTrades = some v → (mergeSettings base p).maxOpenTrades = v) ∧
     (p.maxOpenTrades = none → (mergeSettings base p).maxOpenTrades = base.maxOpenTrades) ∧
     (∀ v, p.rsiPeriod = some v → (mergeSettings base p).rsiPeriod = v) ∧
     (p.rsiPeriod = none → (mergeSettings base p).rsiPeriod = base.rsiPeriod) ∧
     (∀ v, p.rsiBuyThreshold = some v → (mergeSettings base p).rsiBuyThreshold = v) ∧
     (p.rsiBuyThreshold = none →
       (mergeSettings base p).rsiBuyThreshold = base.rsiBuyThreshold) ∧
     (∀ v, p.smaShortPeriod = some v → (mergeSettings base p).smaShortPeriod = v) ∧
     (p.smaShortPeriod = none → (mergeSettings base p).smaShortPeriod = base.smaShortPeriod) ∧
     (∀ v, p.smaLongPeriod = some v → (mergeSettings base p).smaLongPeriod = v) ∧
     (p.smaLongPeriod = none → (mergeSettings base p).smaLongPeriod = base.smaLongPeriod) ∧
     (∀ v, p.useTrailingStop = some v → (mergeSettings base p).useTrailingStop = v) ∧
     (p.useTrailingStop = none → (mergeSettings base p).useTrailingStop = base.useTrailingStop) ∧
     (∀ v, p.trailingStopArmPercentage = some v →
       (mergeSettings base p).trailingStopArmPercentage = v) ∧
     (p.trailingStopArmPercentage = none →
       (mergeSettings base p).trailingStopArmPercentage = base.trailingStopArmPercentage) ∧
     (∀ v, p.trailingStopOffsetPercentage = some v →
       (mergeSettings base p).trailingStopOffsetPercentage = v) ∧
     (p.trailingStopOffsetPercentage = none →
       (mergeSettings base p).trailingStopOffsetPercentage = base.trailingStopOffsetPercentage)) ∧
    ((updateSettingsOp st p).settings = mergeSettings st.settings p ∧
     (updateSettingsOp st p).db.bot_settings =
       some (toPatch (mergeSettings st.settings p))) ∧
    (db.bot_settings = some q → (mkEngine inits db).settings = mergeSettings inits q) := by
  refine ⟨⟨?_, ?_, ?_, ?_, ?_, ?_, ?_, ?_, ?_, ?_, ?_, ?_, ?_, ?_, ?_, ?_, ?_, ?_, ?_, ?_,
    ?_, ?_, ?_, ?_, ?_, ?_⟩, ⟨rfl, rfl⟩, ?_⟩ <;>
    intros <;> simp_all [mergeSettings, mkEngine, loadSettings]

/-- A partial payload: only tradeAmountUSDT and maxOpenTrades. -/
def patchW : SettingsPatch where
  tradeAmountUSDT := some 25
  maxOpenTrades := some 3

/-- A database whose persisted settings blob is the partial `patchW`. -/
def dbQ : Db := { bot_settings := some patchW }

theorem C10_witness :
    (mergeSettings settingsA patchW).tradeAmountUSDT = 25 ∧
    (mergeSettings settingsA patchW).maxCoinPrice = settingsA.maxCoinPrice ∧
    (mkEngine settingsB dbQ).settings = mergeSettings settingsB patchW := by
  have H := C10_update_settings_merge stSell patchW settingsA settingsB dbQ patchW
  exact ⟨H.1.2.2.1 25 rfl, H.1.2.1 rfl, H.2.2 rfl⟩

lemma mem_filterP {p : α → Prop} [DecidablePred p] {l : List α} {a : α} :
    a ∈ filterP p l ↔ a ∈ l ∧ p a := by
  induction l with
  | nil => simp [filterP]
  | cons x xs ih =>
    by_cases h : p x
    · simp only [filterP, if_pos h, List.mem_cons, ih]
      constructor
      · rintro (rfl | ⟨h1, h2⟩)
        · exact ⟨Or.inl rfl, h⟩
        · exact ⟨Or.inr h1, h2⟩
      · rintro ⟨rfl | h1, h2⟩
        · exact Or.inl rfl
        · exact Or.inr ⟨h1, h2⟩
    · simp only [filterP, if_neg h, List.mem_cons, ih]
      constructor
      · rintro ⟨h1, h2⟩
        exact ⟨Or.inr h1, h2⟩
      · rintro ⟨rfl | h1, h2⟩
        · exact absurd h2 h
        · exact ⟨h1, h2⟩

lemma mem_insertLe {le : α → α → Prop} [DecidableRel le] {x a : α} {l : List α} :
    a ∈ insertLe le x l ↔ a = x ∨ a ∈ l := by
  induction l with
  | nil => simp [insertLe]
  | cons y ys ih =>
    by_cases h : le y x
    · simp only [insertLe, if_pos h, List.mem_cons, ih]
      try tauto
    · simp only [insertLe, if_neg h, List.mem_cons]
      try tauto

lemma mem_sortByLe {le : α → α → Prop} [DecidableRel le] {l : List α} {a : α} :
    a ∈ sortByLe le l ↔ a ∈ l := by
  suffices H : ∀ (l acc : List α),
      a ∈ l.foldl (fun acc x => insertLe le x acc) acc ↔ a ∈ acc ∨ a ∈ l by
    simpa [sortByLe] using H l []
  intro l
  induction l with
  | nil => simp
  | cons x xs ih =>
    intro acc
    rw [List.foldl_cons, ih (insertLe le x acc)]
    simp only [mem_insertLe, List.mem_cons]
    tauto

/-- C9: every ticker the gateway's fetchTickers returns has a defined,
strictly positive last price; consequently every Coin scanMarket places
in marketData carries a strictly positive price. -/
theorem C9_positive_prices :
    (∀ (raw : List Ticker) (t : Ticker), t ∈ fetchTickers raw →
      ∃ l, t.last = some l ∧ 0 < l) ∧
    (∀ (s : BotSettings) (env : Env) (c : Coin), c ∈ scanMarketData s env →
      0 < c.price) := by
  have hfetch : ∀ (raw : List Ticker) (t : Ticker), t ∈ fetchTickers raw →
      ∃ l, t.last = some l ∧ 0 < l := by
    intro raw t ht
    rw [fetchTickers, mem_filterP] at ht
    obtain ⟨-, hne, hpos⟩ := ht
    cases hl : t.last with
    | none => exact absurd hl hne
    | some l => exact ⟨l, rfl, by simpa [hl] using hpos⟩
  refine ⟨hfetch, ?_⟩
  intro s env c hc
  simp only [scanMarketData] at hc
  rw [mem_sortByLe] at hc
  obtain ⟨t, ht, rfl⟩ := List.mem_map.mp hc
  have ht2 := List.take_subset 30 _ ht
  rw [mem_sortByLe, mem_filterP] at ht2
  obtain ⟨htf, -⟩ := ht2
  obtain ⟨l, hl, hpos⟩ := hfetch env.tickers t htf
  simpa [coinOfTicker, hl] using hpos

/-- The raw ticker used by concrete scan runs: AAA/USDT at 1. -/
def tickerA : Ticker where
  symbol := "AAA/USDT"
  last := some 1
  baseVolume := some 5
  quoteVolume := some 5
  percentage := some 0

/-- One flat candle at price 1. -/
def candleOne : Candle where
  ts := 0
  openP := 1
  highP := 1
  lowP := 1
  close := 1
  volume := 1

/-- Environment for a concrete scan: one ticker, 50 flat candles, the
indicator library reporting RSI 25, short SMA 10, long SMA 5. -/
def envScan : Env where
  tickers := [tickerA]
  ohlcv := fun _ => List.replicate 50 candleOne
  rsiCalc := fun _ _ => [25]
  smaCalc := fun p _ => if p = 9 then [10] else [5]
  balance := [{ currency := "USDT", free := some 1000, used := some 0, total := some 1000 }]
  fill := fun req => { id := "b1", price := some 1, average := some 1,
                       filled := some req.amount, cost := some 10, amount := req.amount }
  now := 0

lemma symEndsWith_AAA : symEndsWith "AAA/USDT" "/USDT" = true := by decide

lemma symNoSlash_AAA : symNoSlash "AAA/USDT" = "AAAUSDT" := by decide

lemma tickerA_mem_fetch : tickerA ∈ fetchTickers [tickerA] := by
  rw [fetchTickers, mem_filterP]
  refine ⟨by simp, by simp [tickerA], by norm_num [tickerA]⟩

lemma coinA_mem_scan :
    coinOfTicker settingsA envScan tickerA ∈ scanMarketData settingsA envScan := by
  repeat first
  | simp only [scanMarketData, fetchTickers, filterP, sortByLe, insertLe, scanFilter,
      jsTruthy, jsOr, symEndsWith_AAA, symNoSlash_AAA, EXCLUDED_SYMBOLS_BY_DEFAULT,
      tickerA, envScan, List.foldl_cons, List.foldl_nil, List.take, List.mem_singleton,
      List.map_cons, List.map_nil, List.any_cons, List.any_nil, ite_true, ite_false]
  | norm_num
  | simp

theorem C9_witness :
    (∃ l, tickerA.last = some l ∧ 0 < l) ∧
    0 < (coinOfTicker settingsA envScan tickerA).price :=
  ⟨C9_positive_prices.1 [tickerA] tickerA tickerA_mem_fetch,
   C9_positive_prices.2 settingsA envScan _ coinA_mem_scan⟩

lemma processTrade_orders (s : BotSettings) (md : List Coin)
    (pf : List PortfolioItem) (fill : OrderReq → Fill) (now : ℤ)
    (acc : StratAcc) (e : String × BotTradeData) :
    ∀ o ∈ (processTrade s md pf fill now acc e).orders,
      o ∈ acc.orders ∨
        (o.1.side = Side.sell ∧ MIN_TRADE_VALUE_USDT ≤ o.1.amount * o.2) := by
  intro o ho
  simp only [processTrade] at ho
  split at ho
  · exact Or.inl ho
  · split at ho
    · exact Or.inl ho
    · split at ho
      · exact Or.inl ho
      · split at ho
        · exact Or.inl ho
        · split at ho
          · exact Or.inl ho
          · rename_i hguard
            split at ho
            · exact Or.inl ho
            · rename_i hdust
              simp only [List.mem_append, List.mem_singleton] at ho
              rcases ho with ho | ho
              · exact Or.inl ho
              · subst ho
                exact Or.inr ⟨rfl, not_lt.mp hdust⟩

lemma sellLoop_orders (s : BotSettings) (md : List Coin)
    (pf : List PortfolioItem) (fill : OrderReq → Fill) (now : ℤ)
    (entries : List (String × BotTradeData)) :
    ∀ acc : StratAcc,
    (∀ o ∈ acc.orders, o.1.side = Side.sell ∧ MIN_TRADE_VALUE_USDT ≤ o.1.amount * o.2) →
    ∀ o ∈ (entries.foldl (processTrade s md pf fill now) acc).orders,
      o.1.side = Side.sell ∧ MIN_TRADE_VALUE_USDT ≤ o.1.amount * o.2 := by
  induction entries with
  | nil => intro acc h; simpa using h
  | cons e rest ih =>
    intro acc h
    rw [List.foldl_cons]
    refine ih (processTrade s md pf fill now acc e) ?_
    intro o ho
    rcases processTrade_orders s md pf fill now acc e o ho with h1 | h1
    · exact h o h1
    · exact h1

lemma buyPhase_orders (s : BotSettings) (md : List Coin) (usdt : ℚ)
    (fill : OrderReq → Fill) (now : ℤ) (acc : StratAcc) :
    ∀ o ∈ (buyPhase s md usdt fill now acc).orders,
      o ∈ acc.orders ∨
        ∃ c ∈ md, o.1.side = Side.buy ∧
          o.1.amount = s.tradeAmountUSDT / c.price ∧ o.2 = c.price := by
  intro o ho
  simp only [buyPhase] at ho
  split at ho
  · exact Or.inl ho
  · rename_i candidate rest heq
    split at ho
    · exact Or.inl ho
    · split at ho
      · exact Or.inl ho
      · simp only [List.mem_append, List.mem_singleton] at ho
        rcases ho with ho | ho
        · exact Or.inl ho
        · subst ho
          refine Or.inr ⟨candidate, ?_, rfl, rfl, rfl⟩
          have hmem : candidate ∈ sortByLe (fun y x => x.quoteVolume ≤ y.quoteVolume)
              (filterP (buyFilter s acc.activeTrades) md) := by
            rw [heq]; exact List.mem_cons_self _ _
          rw [mem_sortByLe, mem_filterP] at hmem
          exact hmem.1

/-- C4 amended: every sell order the strategy submits respects the dust
guard — its notional value (amount × price at decision time) is at least
MIN_TRADE_VALUE_USDT = 10; every buy order instead has notional value
exactly settings.tradeAmountUSDT, with no minimum check, so a buy below
10 is placed whenever tradeAmountUSDT < 10. -/
theorem C4_order_notional (st : EngineState) (env : Env)
    (hmd : ∀ c ∈ st.marketData, 0 < c.price) :
    ∀ o ∈ (executeStrategy st env).orders,
      (o.1.side = Side.sell → MIN_TRADE_VALUE_USDT ≤ o.1.amount * o.2) ∧
      (o.1.side = Side.buy → o.1.amount * o.2 = st.settings.tradeAmountUSDT) := by
  intro o ho
  simp only [executeStrategy] at ho
  rcases buyPhase_orders st.settings st.marketData st.usdtBalance env.fill env.now _ o ho
    with h | h
  · have hs := sellLoop_orders st.settings st.marketData st.portfolio env.fill env.now
      st.activeTrades _ (by simp) o h
    refine ⟨fun _ => hs.2, fun hb => ?_⟩
    rw [hs.1] at hb
    exact absurd hb (by simp)
  · obtain ⟨c, hcm, hside, hamt, hp⟩ := h
    have hcp : c.price ≠ 0 := ne_of_gt (hmd c hcm)
    refine ⟨fun hsell => ?_, fun _ => ?_⟩
    · rw [hside] at hsell
      exact absurd hsell (by simp)
    · rw [hamt, hp, div_mul_cancel₀ _ hcp]

/-- Settings whose per-trade budget 5 is below the minimum trade value. -/
def settingsC4 : BotSettings := { settingsA with tradeAmountUSDT := 5 }

/-- A buy candidate at price 1 with indicators admitting a buy. -/
def coinBuy : Coin where
  id := "AAA/USDT"
  symbol := "AAA/USDT"
  name := "AAA"
  price := 1
  priceChange24hPercent := 0
  baseAsset := "AAA"
  quoteAsset := "USDT"
  volume := 5
  quoteVolume := 5
  rsi := some 25
  smaShort := some 10
  smaLong := some 5

/-- Engine state about to buy with the 5-USDT budget. -/
def stC4 : EngineState where
  status := BotStatus.RUNNING
  settings := settingsC4
  tradeLedger := []
  activeTrades := []
  marketData := [coinBuy]
  portfolio := []
  usdtBalance := 1000
  scanTimerSet := true
  activeTimers := 1
  isStopping := false
  db := emptyDb

/-- C4 counterexample: with tradeAmountUSDT = 5 the strategy submits a
buy order of notional 5 × 1 = 5 < 10; an order below the minimum trade
value is placed. -/
lemma buyPhase_refuse (s : BotSettings) (md : List Coin) (usdt : ℚ)
    (fill : OrderReq → Fill) (now : ℤ) (acc : StratAcc)
    (h : s.maxOpenTrades ≤ acc.activeTrades.length ∨ usdt < s.tradeAmountUSDT) :
    buyPhase s md usdt fill now acc = acc := by
  simp only [buyPhase]
  split
  · rfl
  · rcases h with h | h
    · rw [if_pos h]
    · by_cases h2 : s.maxOpenTrades ≤ acc.activeTrades.length
      · rw [if_pos h2]
      · rw [if_neg h2, if_pos h]

lemma buyPhase_buy (s : BotSettings) (md : List Coin) (usdt : ℚ)
    (fill : OrderReq → Fill) (now : ℤ) (acc : StratAcc)
    (candidate : Coin) (rest : List Coin)
    (hsort : sortByLe (fun y x => x.quoteVolume ≤ y.quoteVolume)
      (filterP (buyFilter s acc.activeTrades) md) = candidate :: rest)
    (hmax : ¬ s.maxOpenTrades ≤ acc.activeTrades.length)
    (hbal : ¬ usdt < s.tradeAmountUSDT) :
    buyPhase s md usdt fill now acc =
      (let amount := s.tradeAmountUSDT / candidate.price
       let req : OrderReq := { symbol := candidate.symbol, side := Side.buy, amount := amount }
       let order := fill req
       let realPrice := jsOr order.average (jsOr order.price candidate.price)
       let filledAmount := jsOr order.filled order.amount
       let tradeRecord : BotTradeData :=
         { purchasePrice := realPrice, amount := filledAmount, timestamp := now
           highestPriceSinceBuy := some realPrice }
       let row : CompletedTrade :=
         { id := order.id, timestamp := now, type := TradeType.BUY, pair := candidate.symbol
           price := realPrice, amount := filledAmount
           cost := jsOr order.cost (filledAmount * realPrice), orderId := some order.id }
       { activeTrades := mapSet acc.activeTrades candidate.symbol tradeRecord
         db := saveLedgerItem (saveActiveTrade acc.db candidate.symbol tradeRecord) row
         tradeLedger := row :: acc.tradeLedger
         newRows := acc.newRows ++ [row]
         orders := acc.orders ++ [(req, candidate.price)] }) := by
  simp only [buyPhase]
  rw [hsort]
  simp only [if_neg hmax, if_neg hbal]

theorem C4_counterexample :
    (executeStrategy stC4 envScan).orders =
      [({ symbol := "AAA/USDT", side := Side.buy, amount := 5 }, 1)] ∧
    (5 : ℚ) * 1 < MIN_TRADE_VALUE_USDT := by
  constructor
  · have hc : buyFilter settingsC4 ([] : List (String × BotTradeData)) coinBuy := by
      refine ⟨?_, ?_, ?_, ?_, ?_, ?_, ?_, ?_⟩
      · simp [mapHas, mapGet]
      · norm_num [settingsC4, settingsA, coinBuy]
      · simp [coinBuy, symNoSlash_AAA, EXCLUDED_SYMBOLS_BY_DEFAULT]
      · simp [coinBuy]
      · simp [coinBuy]
      · simp [coinBuy]
      · norm_num [settingsC4, settingsA, coinBuy]
      · norm_num [coinBuy]
    have hfil : filterP (buyFilter settingsC4 ([] : List (String × BotTradeData)))
        [coinBuy] = [coinBuy] := by
      simp only [filterP, if_pos hc]
    have hsort : sortByLe (fun y x => x.quoteVolume ≤ y.quoteVolume)
        (filterP (buyFilter settingsC4 ([] : List (String × BotTradeData))) [coinBuy]) =
        [coinBuy] := by
      rw [hfil]
      simp [sortByLe, insertLe]
    have hbuy := buyPhase_buy settingsC4 [coinBuy] 1000 envScan.fill 0
      { activeTrades := [], db := emptyDb, tradeLedger := [], newRows := [], orders := [] }
      coinBuy [] hsort
      (by norm_num [settingsC4, settingsA])
      (by norm_num [settingsC4, settingsA])
    show (buyPhase stC4.settings stC4.marketData stC4.usdtBalance envScan.fill envScan.now
      { activeTrades := stC4.activeTrades, db := stC4.db, tradeLedger := stC4.tradeLedger
        newRows := [], orders := [] }).orders = _
    rw [show stC4.settings = settingsC4 from rfl, show stC4.marketData = [coinBuy] from rfl,
      show stC4.usdtBalance = 1000 from rfl, show stC4.activeTrades = [] from rfl,
      show stC4.db = emptyDb from rfl, show stC4.tradeLedger = [] from rfl,
      show envScan.now = 0 from rfl, hbuy]
    norm_num [envScan, coinBuy, settingsC4, settingsA, jsOr]
  · norm_num [MIN_TRADE_VALUE_USDT]

/-- The sell order of the witness run. -/
def reqSell : OrderReq where
  symbol := "LTC/USDT"
  side := Side.sell
  amount := 10

lemma reqSell_mem : (reqSell, (2 : ℚ)) ∈ (executeStrategy stSell envSell).orders := by
  repeat first
  | simp only [executeStrategy, processTrade, buyPhase, sellDecision, targetPrice,
      effectiveStopLossPrice, initialStopLossPrice, updateHighestPrice, jsOr, jsOrQ,
      filterP, sortByLe, insertLe, buyFilter, mapGet, mapHas, mapSet, mapDelete,
      saveLedgerItem, saveActiveTrade, deleteActiveTrade, ledgerUpsert,
      MIN_TRADE_VALUE_USDT, EXCLUDED_SYMBOLS_BY_DEFAULT, symNoSlash_AAA,
      stSell, envSell, settingsA, tradeA, coinSell, pfSell, reqSell, emptyDb,
      List.foldl_cons, List.foldl_nil, List.any_cons, List.any_nil, ite_true, ite_false]
  | norm_num
  | simp [reqSell]

theorem C4_witness :
    MIN_TRADE_VALUE_USDT ≤ reqSell.amount * 2 :=
  (C4_order_notional stSell envSell
    (by intro c hc; simp only [stSell, List.mem_singleton] at hc; subst hc; norm_num [coinSell])
    (reqSell, 2) reqSell_mem).1 rfl

lemma processTrade_trades_cases (s : BotSettings) (md : List Coin)
    (pf : List PortfolioItem) (fill : OrderReq → Fill) (now : ℤ)
    (acc : StratAcc) (e : String × BotTradeData) :
    (processTrade s md pf fill now acc e).activeTrades = acc.activeTrades ∨
    (processTrade s md pf fill now acc e).activeTrades = mapDelete acc.activeTrades e.1 ∨
    (∃ v, (processTrade s md pf fill now acc e).activeTrades = mapSet acc.activeTrades e.1 v) ∨
    (∃ v, (processTrade s md pf fill now acc e).activeTrades =
      mapDelete (mapSet acc.activeTrades e.1 v) e.1) := by
  simp only [processTrade]
  split
  · exact Or.inl rfl
  · split
    · exact Or.inl rfl
    · split
      · exact Or.inr (Or.inl rfl)
      · split
        · exact Or.inr (Or.inl rfl)
        · split
          · split
            · exact Or.inr (Or.inr (Or.inl ⟨_, rfl⟩))
            · exact Or.inl rfl
          · split
            · split
              · exact Or.inr (Or.inr (Or.inl ⟨_, rfl⟩))
              · exact Or.inl rfl
            · split
              · exact Or.inr (Or.inr (Or.inr ⟨_, rfl⟩))
              · exact Or.inr (Or.inl rfl)

lemma sellLoop_trades_invariant (s : BotSettings) (md : List Coin)
    (pf : List PortfolioItem) (fill : OrderReq → Fill) (now : ℤ) :
    ∀ (entries : List (String × BotTradeData)) (acc : StratAcc) (L : Nat),
    (keys acc.activeTrades).Nodup →
    acc.activeTrades.length ≤ L →
    (∀ e ∈ entries, mapHas acc.activeTrades e.1) →
    (entries.map Prod.fst).Nodup →
    (keys ((entries.foldl (processTrade s md pf fill now) acc).activeTrades)).Nodup ∧
    (entries.foldl (processTrade s md pf fill now) acc).activeTrades.length ≤ L := by
  intro entries
  induction entries with
  | nil =>
    intro acc L h1 h2 _ _
    exact ⟨h1, h2⟩
  | cons e rest ih =>
    intro acc L h1 h2 h3 h4
    rw [List.foldl_cons]
    have hhase : mapHas acc.activeTrades e.1 := h3 e (List.mem_cons_self e rest)
    have hmem : e.1 ∈ keys acc.activeTrades := (mapHas_iff_mem_keys _ _).mp hhase
    simp only [List.map_cons, List.nodup_cons] at h4
    have hne : ∀ e2 ∈ rest, e2.1 ≠ e.1 := by
      intro e2 he2 habs
      exact h4.1 (habs ▸ List.mem_map_of_mem Prod.fst he2)
    have hnext : ∀ P : StratAcc,
        P.activeTrades = acc.activeTrades ∨
        P.activeTrades = mapDelete acc.activeTrades e.1 ∨
        (∃ v, P.activeTrades = mapSet acc.activeTrades e.1 v) ∨
        (∃ v, P.activeTrades = mapDelete (mapSet acc.activeTrades e.1 v) e.1) →
        (keys P.activeTrades).Nodup ∧ P.activeTrades.length ≤ L ∧
        (∀ e2 ∈ rest, mapHas P.activeTrades e2.1) := by
      intro P hP
      rcases hP with hP | hP | ⟨v, hP⟩ | ⟨v, hP⟩
      · rw [hP]
        exact ⟨h1, h2, fun e2 he2 => h3 e2 (List.mem_cons_of_mem e he2)⟩
      · rw [hP]
        refine ⟨nodup_keys_mapDelete _ _ h1, le_trans (length_mapDelete_le _ _) h2, ?_⟩
        intro e2 he2
        rw [mapHas_mapDelete_of_ne _ _ _ (hne e2 he2)]
        exact h3 e2 (List.mem_cons_of_mem e he2)
      · rw [hP]
        refine ⟨nodup_keys_mapSet _ _ _ h1, ?_, ?_⟩
        · rw [length_mapSet_of_has _ _ _ hmem]
          exact h2
        · intro e2 he2
          rw [mapHas_mapSet_of_ne _ _ _ _ (hne e2 he2)]
          exact h3 e2 (List.mem_cons_of_mem e he2)
      · rw [hP]
        have hsetnodup := nodup_keys_mapSet acc.activeTrades e.1 v h1
        refine ⟨nodup_keys_mapDelete _ _ hsetnodup, ?_, ?_⟩
        · calc (mapDelete (mapSet acc.activeTrades e.1 v) e.1).length
              ≤ (mapSet acc.activeTrades e.1 v).length := length_mapDelete_le _ _
            _ = acc.activeTrades.length := length_mapSet_of_has _ _ _ hmem
            _ ≤ L := h2
        · intro e2 he2
          rw [mapHas_mapDelete_of_ne _ _ _ (hne e2 he2),
            mapHas_mapSet_of_ne _ _ _ _ (hne e2 he2)]
          exact h3 e2 (List.mem_cons_of_mem e he2)
    obtain ⟨k1, k2, k3⟩ := hnext (processTrade s md pf fill now acc e)
      (processTrade_trades_cases s md pf fill now acc e)
    exact ih (processTrade s md pf fill now acc e) L k1 k2 k3 h4.2

lemma buyPhase_trades_cases (s : BotSettings) (md : List Coin) (usdt : ℚ)
    (fill : OrderReq → Fill) (now : ℤ) (acc : StratAcc) :
    (buyPhase s md usdt fill now acc).activeTrades = acc.activeTrades ∨
    (¬ s.maxOpenTrades ≤ acc.activeTrades.length ∧
      ∃ k v, (buyPhase s md usdt fill now acc).activeTrades = mapSet acc.activeTrades k v) := by
  simp only [buyPhase]
  split
  · exact Or.inl rfl
  · split
    · exact Or.inl rfl
    · rename_i hmax
      split
      · exact Or.inl rfl
      · exact Or.inr ⟨hmax, _, _, rfl⟩

lemma executeStrategy_trades (st : EngineState) (env : Env) (L : Nat)
    (h1 : (keys st.activeTrades).Nodup)
    (h2 : st.activeTrades.length ≤ L)
    (h3 : st.settings.maxOpenTrades ≤ L) :
    (keys (executeStrategy st env).activeTrades).Nodup ∧
    (executeStrategy st env).activeTrades.length ≤ L := by
  simp only [executeStrategy]
  set acc1 := st.activeTrades.foldl
    (processTrade st.settings st.marketData st.portfolio env.fill env.now)
    { activeTrades := st.activeTrades, db := st.db, tradeLedger := st.tradeLedger
      newRows := [], orders := [] } with hacc1
  obtain ⟨j1, j2⟩ := sellLoop_trades_invariant st.settings st.marketData st.portfolio
    env.fill env.now st.activeTrades
    { activeTrades := st.activeTrades, db := st.db, tradeLedger := st.tradeLedger
      newRows := [], orders := [] } L h1 h2
    (fun e he => mapHas_of_mem st.activeTrades e he) h1
  rw [← hacc1] at j1 j2
  rcases buyPhase_trades_cases st.settings st.marketData st.usdtBalance env.fill env.now acc1
    with hb | ⟨hmax, k, v, hb⟩
  · rw [hb]
    exact ⟨j1, j2⟩
  · rw [hb]
    refine ⟨nodup_keys_mapSet _ _ _ j1, ?_⟩
    calc (mapSet acc1.activeTrades k v).length
        ≤ acc1.activeTrades.length + 1 := length_mapSet_le _ _ _
      _ ≤ st.settings.maxOpenTrades := by omega
      _ ≤ L := h3

lemma executeLoop_frame (st : EngineState) (env : Env) :
    (executeLoop st env).settings = st.settings ∧
    (executeLoop st env).scanTimerSet = st.scanTimerSet ∧
    (executeLoop st env).activeTimers = st.activeTimers ∧
    (executeLoop st env).status = st.status ∧
    (executeLoop st env).isStopping = st.isStopping := by
  simp only [executeLoop]
  split
  · exact ⟨rfl, rfl, rfl, rfl, rfl⟩
  · simp [applyStrat, scanMarketState, refreshAccountState]

lemma executeLoop_trades (st : EngineState) (env : Env) (L : Nat)
    (h1 : (keys st.activeTrades).Nodup)
    (h2 : st.activeTrades.length ≤ L)
    (h3 : st.settings.maxOpenTrades ≤ L) :
    (keys (executeLoop st env).activeTrades).Nodup ∧
    (executeLoop st env).activeTrades.length ≤ L := by
  simp only [executeLoop]
  split
  · exact ⟨h1, h2⟩
  · set st2 := scanMarketState (refreshAccountState st env) env with hst2
    have e1 : st2.activeTrades = st.activeTrades := rfl
    have e2 : st2.settings = st.settings := rfl
    have := executeStrategy_trades st2 env L (by rw [e1]; exact h1) (by rw [e1]; exact h2)
      (by rw [e2]; exact h3)
    simpa [applyStrat] using this

/-- C3 amended: every engine operation except a settings update that
lowers maxOpenTrades preserves the invariant
len(activeTrades) ≤ maxOpenTrades (so it holds in every state reachable
from a fresh engine under such commands, key-uniqueness of the trades map
being preserved too); and the buy path refuses a buy whenever
activeTrades.size ≥ maxOpenTrades or usdtBalance < tradeAmountUSDT.
An updateSettings that lowers maxOpenTrades below the current number of
open trades breaks the invariant (see the counterexample). -/
theorem C3_max_open_trades :
    (∀ (st : EngineState) (cmd : Cmd), (keys st.activeTrades).Nodup →
      (keys (runCmd st cmd).activeTrades).Nodup) ∧
    (∀ (st : EngineState) (cmd : Cmd), (keys st.activeTrades).Nodup →
      st.activeTrades.length ≤ st.settings.maxOpenTrades →
      st.settings.maxOpenTrades ≤ (runCmd st cmd).settings.maxOpenTrades →
      (runCmd st cmd).activeTrades.length ≤ (runCmd st cmd).settings.maxOpenTrades) ∧
    (∀ (s : BotSettings) (md : List Coin) (usdt : ℚ) (fill : OrderReq → Fill) (now : ℤ)
      (acc : StratAcc),
      (s.maxOpenTrades ≤ acc.activeTrades.length ∨ usdt < s.tradeAmountUSDT) →
      buyPhase s md usdt fill now acc = acc) := by
  refine ⟨?_, ?_, buyPhase_refuse⟩
  · intro st cmd h1
    cases cmd with
    | init ok env =>
      simp only [runCmd, initOp]
      split
      · exact h1
      · exact h1
    | start env =>
      simp only [runCmd, startOp]
      split
      · exact (executeLoop_trades st env
          (max st.activeTrades.length st.settings.maxOpenTrades)
          h1 (le_max_left _ _) (le_max_right _ _)).1
      · exact (executeLoop_trades (startCore st) env
          (max (startCore st).activeTrades.length (startCore st).settings.maxOpenTrades)
          h1 (le_max_left _ _) (le_max_right _ _)).1
    | stop hard => exact h1
    | updateSettings p => exact h1
    | tick env =>
      exact (executeLoop_trades st env
        (max st.activeTrades.length st.settings.maxOpenTrades)
        h1 (le_max_left _ _) (le_max_right _ _)).1
  · intro st cmd h1 h2 h3
    cases cmd with
    | init ok env =>
      simp only [runCmd, initOp] at h3 ⊢
      split at h3 <;> split <;> first | exact h2.trans h3 | exact h2.trans h3
    | start env =>
      simp only [runCmd, startOp] at h3 ⊢
      split
      · have hfr := executeLoop_frame st env
        rw [hfr.1]
        exact (executeLoop_trades st env st.settings.maxOpenTrades h1 h2 le_rfl).2
      · have hfr := executeLoop_frame (startCore st) env
        rw [hfr.1]
        exact (executeLoop_trades (startCore st) env st.settings.maxOpenTrades h1 h2 le_rfl).2
    | stop hard => exact h2.trans h3
    | updateSettings p => exact h2.trans h3
    | tick env =>
      have hfr := executeLoop_frame st env
      simp only [runCmd]
      rw [hfr.1]
      exact (executeLoop_trades st env st.settings.maxOpenTrades h1 h2 le_rfl).2

/-- The Coin the scan of `envScan` produces. -/
def coinScanA : Coin where
  id := "AAA/USDT"
  symbol := "AAA/USDT"
  name := "AAA"
  price := 1
  priceChange24hPercent := 0
  baseAsset := "AAA"
  quoteAsset := "USDT"
  volume := 5
  quoteVolume := 5
  rsi := some 25
  smaShort := some 10
  smaLong := some 5

/-- Empty strategy accumulator over the empty trade map. -/
def accC3 : StratAcc where
  activeTrades := []
  db := emptyDb
  tradeLedger := []
  newRows := []
  orders := []

/-- The engine state right before the strategy step of the first loop of
the C3 counterexample run. -/
def stPre : EngineState where
  status := BotStatus.RUNNING
  settings := settingsA
  tradeLedger := []
  activeTrades := []
  marketData := [coinScanA]
  portfolio := []
  usdtBalance := 1000
  scanTimerSet := true
  activeTimers := 1
  isStopping := false
  db := emptyDb

/-- A settings update lowering maxOpenTrades to 0. -/
def patchZero : SettingsPatch := { maxOpenTrades := some 0 }

/-- The C3 counterexample command sequence: start (which buys AAA/USDT),
then lower maxOpenTrades to 0. -/
def cmdsC3 : List Cmd := [Cmd.start envScan, Cmd.updateSettings patchZero]

/-- C3 counterexample: from a fresh engine, one buy followed by an
updateSettings that lowers maxOpenTrades to 0 reaches a state with
1 = len(activeTrades) > maxOpenTrades = 0, refuting the claimed global
invariant. -/
theorem C3_counterexample :
    ¬ ((runCmds (mkEngine settingsA emptyDb) cmdsC3).activeTrades.length ≤
       (runCmds (mkEngine settingsA emptyDb) cmdsC3).settings.maxOpenTrades) := by
  have hbuy := buyPhase_buy settingsA [coinScanA] 1000 envScan.fill 0 accC3 coinScanA []
    rfl (by decide) (by decide)
  have hrun : runCmds (mkEngine settingsA emptyDb) cmdsC3 =
      updateSettingsOp (applyStrat stPre
        (buyPhase settingsA [coinScanA] 1000 envScan.fill 0 accC3)) patchZero := rfl
  rw [hrun, hbuy]
  simp [updateSettingsOp, applyStrat, mergeSettings, patchZero, mapSet, accC3, stPre]

theorem C3_witness :
    (keys (runCmd stSell (Cmd.stop false)).activeTrades).Nodup ∧
    (runCmd stSell (Cmd.stop false)).activeTrades.length ≤
      (runCmd stSell (Cmd.stop false)).settings.maxOpenTrades ∧
    buyPhase settingsA [] 0 envSell.fill 0 accC3 = accC3 := by
  refine ⟨?_, ?_, ?_⟩
  · exact C3_max_open_trades.1 stSell (Cmd.stop false) (by simp [stSell, keys])
  · exact C3_max_open_trades.2.1 stSell (Cmd.stop false)
      (by simp [stSell, keys])
      (by simp [stSell, settingsA])
      (by simp [runCmd, stopOp, stSell])
  · exact C3_max_open_trades.2.2 settingsA [] 0 envSell.fill 0 accC3
      (Or.inr (by norm_num [settingsA, accC3]))

lemma startOp_fields (st : EngineState) (env : Env)
    (hrun : st.status = BotStatus.RUNNING → st.scanTimerSet = true)
    (ht : st.activeTimers = if st.scanTimerSet then 1 else 0) :
    (startOp st env).activeTimers = 1 ∧ (startOp st env).scanTimerSet = true ∧
    (startOp st env).status = BotStatus.RUNNING := by
  unfold startOp
  by_cases h : st.status = BotStatus.RUNNING
  · rw [if_pos h]
    have hfr := executeLoop_frame st env
    rw [hfr.2.1, hfr.2.2.1, hfr.2.2.2.1]
    rw [hrun h] at ht ⊢
    exact ⟨by rw [ht]; simp, rfl, h⟩
  · rw [if_neg h]
    have hfr := executeLoop_frame (startCore st) env
    rw [hfr.2.1, hfr.2.2.1, hfr.2.2.2.1]
    refine ⟨?_, rfl, rfl⟩
    show (if st.scanTimerSet then st.activeTimers - 1 else st.activeTimers) + 1 = 1
    by_cases hset : st.scanTimerSet
    · rw [if_pos hset]
      rw [hset] at ht
      simp [ht]
    · rw [if_neg hset]
      simp only [hset] at ht
      simp [ht]

/-- C8: start/stop are idempotent for the timer and status: calling start
when already RUNNING leaves the single timer alone (its only effect is
the warning log and one loop iteration), so start;start leaves exactly
one active timer and status RUNNING; stop;stop equals stop, leaving
status STOPPED and no timer. -/
theorem C8_start_stop_idempotent (st : EngineState) (env env2 : Env)
    (hrun : st.status = BotStatus.RUNNING → st.scanTimerSet = true)
    (ht : st.activeTimers = if st.scanTimerSet then 1 else 0) :
    ((startOp (startOp st env) env2).activeTimers = 1 ∧
     (startOp (startOp st env) env2).scanTimerSet = true ∧
     (startOp (startOp st env) env2).status = BotStatus.RUNNING) ∧
    (stopOp (stopOp st false) false = stopOp st false ∧
     (stopOp st false).status = BotStatus.STOPPED ∧
     (stopOp st false).scanTimerSet = false ∧
     (stopOp st false).activeTimers = 0) := by
  constructor
  · have h1 := startOp_fields st env hrun ht
    exact startOp_fields (startOp st env) env2 (fun _ => h1.2.1)
      (by rw [h1.1, h1.2.1]; simp)
  · refine ⟨?_, rfl, rfl, ?_⟩
    · simp [stopOp]
    · show (if st.scanTimerSet then st.activeTimers - 1 else st.activeTimers) = 0
      by_cases hset : st.scanTimerSet
      · rw [if_pos hset]
        rw [hset] at ht
        simp [ht]
      · rw [if_neg hset]
        simpa [hset] using ht

theorem C8_witness :
    (startOp (startOp (mkEngine settingsA emptyDb) envSell) envSell).activeTimers = 1 ∧
    stopOp (stopOp (mkEngine settingsA emptyDb) false) false =
      stopOp (mkEngine settingsA emptyDb) false := by
  have H := C8_start_stop_idempotent (mkEngine settingsA emptyDb) envSell envSell
    (by intro h; exact absurd h (by decide)) (by decide)
  exact ⟨H.1.1, H.2.1⟩

end SBTB
